import Mathlib

/-!
Verification development for the UtilityContainers repository.

The repository hosts two MCP (Model Context Protocol) servers exposed over
Server-Sent Events: a Confluence publishing server and a Pandoc conversion
server.  This file gives a shallow embedding, translated from the TypeScript
sources, of:

* the authentication middleware (`authenticateRequest`),
* the fixed-window rate limiter (`rateLimitMiddleware`),
* the SSE session table and the POST `/messages` routing handler,
* the Mermaid diagram extraction/rewrite pipeline
  (`DiagramProcessor.processMarkdown`),
* the Confluence tool handlers (`confluence_create_page`,
  `confluence_update_page`, `confluence_delete_page`,
  `confluence_list_pages`) together with the path-to-page mapping cache.

JavaScript strings that may be `undefined` are embedded as `Option String`;
JavaScript truthiness of such values is the `falsy` predicate below
(`undefined` and the empty string are falsy).  Buffers are embedded as
`List Nat` (byte lists), timestamps as natural-number milliseconds, and each
external network call as an explicit `Except`-valued outcome parameter, so
one call of an embedded handler consumes exactly one outcome (the code
performs no retry).
-/

/-- JavaScript truthiness for a `string | undefined` value:
`undefined` and the empty string are falsy. -/
def falsy : Option String → Bool
  | none => true
  | some s => s.isEmpty

/-- The JavaScript `||` operator on `string | undefined` values:
returns the left operand when it is truthy, otherwise the right one. -/
def jsOr (a b : Option String) : Option String :=
  if falsy a then b else a

/-- `error.message || defaultMsg` as used by every tool handler. -/
def errOr (m d : String) : String :=
  if m.isEmpty then d else m

/-! ## Authentication middleware

Embeds `authenticateRequest` (confluence server, and the identical copy in
the pandoc server): the supplied credential is
`req.headers[x-mcp-api-key] || req.query.apiKey`; an unset (or empty)
`MCP_API_KEY` yields a 500 configuration error; a falsy or mismatching
credential yields a 401. -/

/-- Outcome of the authentication middleware. -/
inductive AuthResult where
  /-- `res.status(500)` - `MCP_API_KEY` not configured on the server. -/
  | serverConfigError
  /-- `res.status(401)` - invalid or missing API key. -/
  | unauthorized
  /-- `next()` was called: the request is admitted. -/
  | allowed
deriving DecidableEq, Repr

/-- `authenticateRequest` from the server sources.  `serverKey` is
`process.env.MCP_API_KEY`, `header` is `req.headers[x-mcp-api-key]` and
`query` is `req.query.apiKey`. -/
def authenticateRequest (serverKey header query : Option String) : AuthResult :=
  let apiKey := jsOr header query
  if falsy serverKey then
    AuthResult.serverConfigError
  else if falsy apiKey then
    AuthResult.unauthorized
  else if apiKey ≠ serverKey then
    AuthResult.unauthorized
  else
    AuthResult.allowed

/-- C2: the middleware admits a request iff the configured secret and the
supplied credential (`header || query`) are both present (truthy) and equal;
an unset/empty server secret deterministically yields the configuration
error; otherwise a falsy or mismatching credential yields the
authentication error. -/
theorem authenticateRequest_c2 (sk h q : Option String) :
    (authenticateRequest sk h q = AuthResult.allowed ↔
      (falsy sk = false ∧ falsy (jsOr h q) = false ∧ jsOr h q = sk))
    ∧ (falsy sk = true → authenticateRequest sk h q = AuthResult.serverConfigError)
    ∧ (falsy sk = false → (falsy (jsOr h q) = true ∨ jsOr h q ≠ sk) →
        authenticateRequest sk h q = AuthResult.unauthorized) := by
  unfold authenticateRequest
  by_cases hsk : falsy sk <;>
    by_cases hak : falsy (jsOr h q) <;>
      by_cases heq : jsOr h q = sk <;>
        simp_all

/-- Witness for C2: a matching present key is allowed; an unset server
secret is a configuration error; a mismatching key is unauthorized. -/
theorem authenticateRequest_c2_witness :
    authenticateRequest (some "secret") (some "secret") none = AuthResult.allowed
    ∧ authenticateRequest none (some "secret") none = AuthResult.serverConfigError
    ∧ authenticateRequest (some "secret") (some "wrong") none = AuthResult.unauthorized := by
  refine ⟨?_, ?_, ?_⟩
  · exact (authenticateRequest_c2 (some "secret") (some "secret") none).1.mpr (by decide)
  · exact (authenticateRequest_c2 none (some "secret") none).2.1 (by decide)
  · exact (authenticateRequest_c2 (some "secret") (some "wrong") none).2.2 (by decide)
      (Or.inr (by decide))

/-! ## Fixed-window rate limiter

Embeds `rateLimitMiddleware` and its `rateLimitStore` map.  The JavaScript
`Map<string, {count, resetTime}>` is embedded as an association list with
unique keys; `Map.get`, `Map.set` and `Map.delete`-during-iteration become
`storeGet`, `storeSet` and the `cleanup` filter.  Times are millisecond
naturals; `Math.ceil((resetTime - now) / 1000)` becomes `ceilSeconds`. -/

/-- One rate-limit entry: request count and window end (`resetTime`). -/
structure RLEntry where
  count : Nat
  resetTime : Nat
deriving DecidableEq, Repr

/-- The rate-limit store: an insertion-ordered map from client id. -/
abbrev RLStore := List (String × RLEntry)

/-- `rateLimitStore.get(clientId)`. -/
def storeGet : RLStore → String → Option RLEntry
  | [], _ => none
  | (k, e) :: rest, c => if k = c then some e else storeGet rest c

/-- `rateLimitStore.set(clientId, entry)`: replace in place, else append. -/
def storeSet : RLStore → String → RLEntry → RLStore
  | [], c, v => [(c, v)]
  | (k, e) :: rest, c, v =>
      if k = c then (c, v) :: rest else (k, e) :: storeSet rest c v

/-- The cleanup loop at the start of the middleware: delete every entry
with `now > value.resetTime`. -/
def cleanup (now : Nat) (s : RLStore) : RLStore :=
  s.filter fun p => decide (now ≤ p.2.resetTime)

/-- `Math.ceil(ms / 1000)` on natural milliseconds. -/
def ceilSeconds (ms : Nat) : Nat := (ms + 999) / 1000

/-- Outcome of the rate-limit middleware together with the store it
leaves behind. -/
inductive RLResult where
  /-- `next()` was called. -/
  | allowed (store : RLStore)
  /-- `res.status(429)` with `retryAfter` seconds. -/
  | rejected (retryAfter : Nat) (store : RLStore)
deriving DecidableEq, Repr

/-- The store component of an `RLResult`. -/
def RLResult.store : RLResult → RLStore
  | RLResult.allowed s => s
  | RLResult.rejected _ s => s

/-- `rateLimitMiddleware` from the server sources, with the window length
`w` (`RATE_LIMIT_WINDOW`), ceiling `m` (`RATE_LIMIT_MAX_REQUESTS`),
current time `now` (`Date.now()`) and client id `c` (`req.ip`) explicit. -/
def rateLimitMiddleware (w m now : Nat) (c : String) (store : RLStore) : RLResult :=
  let s := cleanup now store
  match storeGet s c with
  | none => RLResult.allowed (storeSet s c ⟨1, now + w⟩)
  | some e =>
      if now > e.resetTime then
        RLResult.allowed (storeSet s c ⟨1, now + w⟩)
      else if m ≤ e.count then
        RLResult.rejected (ceilSeconds (e.resetTime - now)) s
      else
        RLResult.allowed (storeSet s c ⟨e.count + 1, e.resetTime⟩)

/-- The source constants: a 15 minute window. -/
def RATE_LIMIT_WINDOW : Nat := 15 * 60 * 1000

/-- The source constants: at most 100 requests per window. -/
def RATE_LIMIT_MAX_REQUESTS : Nat := 100

/-- Keys of the store are pairwise distinct (a JavaScript `Map`
invariant). -/
def keysNodup (s : RLStore) : Prop := (s.map Prod.fst).Nodup

/-- Every entry of the store ends its window at most `w` after `now`;
this holds for every store the middleware itself builds, since entries are
created with `resetTime = now + w` and the clock does not go backwards. -/
def rlInv (w now : Nat) (s : RLStore) : Prop :=
  ∀ p ∈ s, p.2.resetTime ≤ now + w

lemma storeGet_mem {s : RLStore} {c : String} {e : RLEntry}
    (h : storeGet s c = some e) : (c, e) ∈ s := by
  induction s with
  | nil => simp [storeGet] at h
  | cons p rest ih =>
      obtain ⟨k, e0⟩ := p
      by_cases hk : k = c
      · subst hk
        simp [storeGet] at h
        subst h
        exact List.mem_cons_self _ _
      · simp [storeGet, hk] at h
        exact List.mem_cons_of_mem _ (ih h)

lemma storeGet_cleanup_le {store : RLStore} {now : Nat} {c : String} {e : RLEntry}
    (h : storeGet (cleanup now store) c = some e) : now ≤ e.resetTime := by
  have hm := storeGet_mem h
  have := List.of_mem_filter hm
  simpa using this

lemma cleanup_subset {now : Nat} {store : RLStore} {p : String × RLEntry}
    (h : p ∈ cleanup now store) : p ∈ store :=
  List.mem_of_mem_filter h

lemma storeGet_storeSet_same (s : RLStore) (c : String) (v : RLEntry) :
    storeGet (storeSet s c v) c = some v := by
  induction s with
  | nil => simp [storeSet, storeGet]
  | cons p rest ih =>
      obtain ⟨k, e⟩ := p
      by_cases hk : k = c
      · subst hk
        simp [storeSet, storeGet]
      · simp [storeSet, storeGet, hk, ih]

lemma mem_storeSet {s : RLStore} {c : String} {v : RLEntry} {p : String × RLEntry}
    (h : p ∈ storeSet s c v) : p ∈ s ∨ p = (c, v) := by
  induction s with
  | nil => simp [storeSet] at h; right; exact h
  | cons q rest ih =>
      obtain ⟨k, e⟩ := q
      by_cases hk : k = c
      · subst hk
        simp [storeSet] at h
        rcases h with h | h
        · right; exact h
        · left; exact List.mem_cons_of_mem _ h
      · simp [storeSet, hk] at h
        rcases h with h | h
        · left; simp [h]
        · rcases ih h with h1 | h1
          · left; exact List.mem_cons_of_mem _ h1
          · right; exact h1

lemma storeGet_none_of_not_key {s : RLStore} {c : String}
    (h : c ∉ s.map Prod.fst) : storeGet s c = none := by
  induction s with
  | nil => rfl
  | cons p rest ih =>
      obtain ⟨k, e⟩ := p
      have hk : ¬ k = c := fun he => h (by subst he; exact List.mem_cons_self _ _)
      have hrest : c ∉ rest.map Prod.fst := fun hm => h (List.mem_cons_of_mem _ hm)
      simp [storeGet, hk, ih hrest]

lemma keys_cleanup_subset {now : Nat} {store : RLStore} {c : String}
    (h : c ∈ (cleanup now store).map Prod.fst) : c ∈ store.map Prod.fst := by
  obtain ⟨q, hq, hq2⟩ := List.mem_map.mp h
  exact List.mem_map.mpr ⟨q, List.mem_of_mem_filter hq, hq2⟩

lemma storeGet_cleanup_expired {store : RLStore} {now : Nat} {c : String} {e : RLEntry}
    (hnd : keysNodup store) (h : storeGet store c = some e) (hex : e.resetTime < now) :
    storeGet (cleanup now store) c = none := by
  induction store with
  | nil => simp [storeGet] at h
  | cons p rest ih =>
      obtain ⟨k, e0⟩ := p
      have hnd0 : k ∉ rest.map Prod.fst ∧ (rest.map Prod.fst).Nodup := by
        simpa [keysNodup, List.nodup_cons] using hnd
      by_cases hk : k = c
      · subst hk
        have he0 : e0 = e := by
          have := h
          simp [storeGet] at this
          exact this
        subst he0
        have hdrop : ¬ now ≤ e0.resetTime := Nat.not_le.mpr hex
        have hcl : cleanup now ((k, e0) :: rest) = cleanup now rest := by
          simp [cleanup, hdrop]
        rw [hcl]
        exact storeGet_none_of_not_key fun hm => hnd0.1 (keys_cleanup_subset hm)
      · have hrest : storeGet rest c = some e := by
          simpa [storeGet, hk] using h
        have hrec := ih hnd0.2 hrest
        by_cases hkeep : now ≤ e0.resetTime
        · have hcl : cleanup now ((k, e0) :: rest) = (k, e0) :: cleanup now rest := by
            simp [cleanup, hkeep]
          rw [hcl]
          simpa [storeGet, hk] using hrec
        · have hcl : cleanup now ((k, e0) :: rest) = cleanup now rest := by
            simp [cleanup, hkeep]
          rw [hcl]
          exact hrec

lemma rlInv_mono {w now now' : Nat} {s : RLStore} (h : rlInv w now s)
    (hle : now ≤ now') : rlInv w now' s := by
  intro p hp
  exact le_trans (h p hp) (Nat.add_le_add_right hle w)

/-- C3: (1) a client whose cleaned-up entry has reached the ceiling is
rejected with a retry-after of exactly the remaining whole seconds to
`resetTime`, and under the window invariant that hint is at most the
window length in seconds; (2) a client whose (unique) entry has expired is
admitted again with a fresh entry of count 1; (3) the window invariant is
preserved by every middleware step. -/
theorem rateLimitMiddleware_c3 (w m now : Nat) (c : String) (store : RLStore) :
    (∀ e, storeGet (cleanup now store) c = some e → m ≤ e.count →
      rateLimitMiddleware w m now c store =
        RLResult.rejected (ceilSeconds (e.resetTime - now)) (cleanup now store)
      ∧ (rlInv w now store → ceilSeconds (e.resetTime - now) ≤ ceilSeconds w))
    ∧ (∀ e, storeGet store c = some e → e.resetTime < now → keysNodup store →
      rateLimitMiddleware w m now c store =
        RLResult.allowed (storeSet (cleanup now store) c ⟨1, now + w⟩)
      ∧ storeGet (rateLimitMiddleware w m now c store).store c = some ⟨1, now + w⟩)
    ∧ (rlInv w now store → rlInv w now (rateLimitMiddleware w m now c store).store) := by
  refine ⟨?_, ?_, ?_⟩
  · intro e hget hcount
    have hle : now ≤ e.resetTime := storeGet_cleanup_le hget
    constructor
    · simp [rateLimitMiddleware, hget, Nat.not_lt.mpr hle, hcount]
    · intro hinv
      have hmem : (c, e) ∈ store := cleanup_subset (storeGet_mem hget)
      have hbound : e.resetTime ≤ now + w := hinv (c, e) hmem
      have hsub : e.resetTime - now ≤ w := by omega
      exact Nat.div_le_div_right (Nat.add_le_add_right hsub 999)
  · intro e hget hex hnd
    have hnone : storeGet (cleanup now store) c = none :=
      storeGet_cleanup_expired hnd hget hex
    have hres : rateLimitMiddleware w m now c store =
        RLResult.allowed (storeSet (cleanup now store) c ⟨1, now + w⟩) := by
      simp [rateLimitMiddleware, hnone]
    refine ⟨hres, ?_⟩
    rw [hres]
    exact storeGet_storeSet_same _ _ _
  · intro hinv
    have hclean : rlInv w now (cleanup now store) := fun p hp =>
      hinv p (cleanup_subset hp)
    have hset : ∀ e0 : RLEntry, e0.resetTime ≤ now + w →
        rlInv w now (storeSet (cleanup now store) c e0) := by
      intro e0 he0 p hp
      rcases mem_storeSet hp with h | h
      · exact hclean p h
      · simp [h, he0]
    cases hget : storeGet (cleanup now store) c with
    | none =>
        have hr : rateLimitMiddleware w m now c store =
            RLResult.allowed (storeSet (cleanup now store) c ⟨1, now + w⟩) := by
          simp [rateLimitMiddleware, hget]
        rw [hr]
        exact hset ⟨1, now + w⟩ (le_refl _)
    | some e =>
        by_cases hexp : e.resetTime < now
        · have hr : rateLimitMiddleware w m now c store =
              RLResult.allowed (storeSet (cleanup now store) c ⟨1, now + w⟩) := by
            simp [rateLimitMiddleware, hget, hexp]
          rw [hr]
          exact hset ⟨1, now + w⟩ (le_refl _)
        · by_cases hcount : m ≤ e.count
          · have hr : rateLimitMiddleware w m now c store =
                RLResult.rejected (ceilSeconds (e.resetTime - now)) (cleanup now store) := by
              simp [rateLimitMiddleware, hget, hexp, hcount]
            rw [hr]
            exact hclean
          · have he : e.resetTime ≤ now + w :=
              hclean (c, e) (storeGet_mem hget)
            have hr : rateLimitMiddleware w m now c store =
                RLResult.allowed (storeSet (cleanup now store) c ⟨e.count + 1, e.resetTime⟩) := by
              simp [rateLimitMiddleware, hget, hexp, hcount]
            rw [hr]
            exact hset ⟨e.count + 1, e.resetTime⟩ he

/-- Witness for C3: with the deployed constants, a client at the ceiling
with 4000 ms left in its window is rejected with `retryAfter = 4` seconds,
4 ≤ 900 (the window in seconds), and a client with an expired entry is
re-admitted with a fresh count-1 entry. -/
theorem rateLimitMiddleware_c3_witness :
    rateLimitMiddleware RATE_LIMIT_WINDOW RATE_LIMIT_MAX_REQUESTS 1000 "10.0.0.1"
        [("10.0.0.1", ⟨100, 5000⟩)] =
      RLResult.rejected (ceilSeconds (5000 - 1000)) (cleanup 1000 [("10.0.0.1", ⟨100, 5000⟩)])
    ∧ ceilSeconds (5000 - 1000) ≤ ceilSeconds RATE_LIMIT_WINDOW
    ∧ rateLimitMiddleware RATE_LIMIT_WINDOW RATE_LIMIT_MAX_REQUESTS 9999999 "10.0.0.1"
        [("10.0.0.1", ⟨100, 5000⟩)] =
      RLResult.allowed (storeSet (cleanup 9999999 [("10.0.0.1", ⟨100, 5000⟩)]) "10.0.0.1"
        ⟨1, 9999999 + RATE_LIMIT_WINDOW⟩) := by
  have h1 := (rateLimitMiddleware_c3 RATE_LIMIT_WINDOW RATE_LIMIT_MAX_REQUESTS 1000 "10.0.0.1"
      [("10.0.0.1", ⟨100, 5000⟩)]).1 ⟨100, 5000⟩ (by decide) (by decide)
  have h2 := (rateLimitMiddleware_c3 RATE_LIMIT_WINDOW RATE_LIMIT_MAX_REQUESTS 9999999 "10.0.0.1"
      [("10.0.0.1", ⟨100, 5000⟩)]).2.1 ⟨100, 5000⟩ (by decide) (by decide)
      (by simp [keysNodup])
  exact ⟨h1.1, h1.2 (by intro p hp; simp at hp; simp [hp, RATE_LIMIT_WINDOW]), h2.1⟩

/-! ## SSE session table and POST `/messages` routing

Embeds the `transports` record (`Record<string, SSEServerTransport>`, a
set of live session ids with unique keys, here its key list), the
`transport.onclose` handler installed on the GET `/mcp` route
(`delete transports[sessionId]`) and the POST `/messages` handler.  The
`transport.handlePostMessage` call is an `Except`-valued outcome
parameter. -/

/-- HTTP-level outcome of the POST `/messages` handler. -/
inductive PostResponse where
  /-- `res.status(400).send(Missing sessionId parameter)`. -/
  | badRequest
  /-- `res.status(404).send(Session not found)`. -/
  | sessionNotFound
  /-- `transport.handlePostMessage` completed for this session. -/
  | handled (sessionId : String)
  /-- `res.status(500)` after `handlePostMessage` threw. -/
  | serverError
deriving DecidableEq, Repr

/-- The POST `/messages` handler: `sessionId` is `req.query.sessionId`
(`undefined` and the empty string are falsy), `table` is the set of keys of
the `transports` record, `post` the outcome of `handlePostMessage`. -/
def handleMessagesPost (table : List String) (sessionId : Option String)
    (post : Except Unit Unit) : PostResponse :=
  match sessionId with
  | none => PostResponse.badRequest
  | some sid =>
      if sid.isEmpty then PostResponse.badRequest
      else if table.contains sid then
        match post with
        | Except.ok _ => PostResponse.handled sid
        | Except.error _ => PostResponse.serverError
      else PostResponse.sessionNotFound

/-- The `transport.onclose` handler: `delete transports[sessionId]`. -/
def onClose (table : List String) (sid : String) : List String :=
  table.filter fun k => k != sid

/-- Counterexample to C4 as stated: a POST with an absent `sessionId` is in
the class the claim quantifies over, but the server answers with the 400
missing-parameter response, not with the 404 session-not-found response. -/
theorem handleMessagesPost_c4_counterexample :
    handleMessagesPost [] none (Except.ok ()) = PostResponse.badRequest
    ∧ PostResponse.badRequest ≠ PostResponse.sessionNotFound := by
  decide

/-- C4 (amended): a POST whose `sessionId` is present and non-empty but
does not identify a live session gets the session-not-found error response
(404); a POST with an absent or empty `sessionId` gets the bad-request
missing-parameter error response (400); both are error responses rather
than a throw. -/
theorem handleMessagesPost_c4 (table : List String) (sid : Option String)
    (post : Except Unit Unit) :
    (falsy sid = true → handleMessagesPost table sid post = PostResponse.badRequest)
    ∧ (∀ s, sid = some s → s.isEmpty = false → table.contains s = false →
        handleMessagesPost table sid post = PostResponse.sessionNotFound) := by
  constructor
  · intro hf
    cases sid with
    | none => rfl
    | some s =>
        have : s.isEmpty = true := by simpa [falsy] using hf
        simp [handleMessagesPost, this]
  · intro s hs hne hcont
    subst hs
    have hnm : s ∉ table := by
      intro hm
      have h1 : table.contains s = true := List.elem_eq_true_of_mem hm
      rw [hcont] at h1
      exact Bool.false_ne_true h1
    simp [handleMessagesPost, hne, hnm]

/-- Witness for C4 (amended): an unknown non-empty session id yields 404,
an absent one yields 400. -/
theorem handleMessagesPost_c4_witness :
    handleMessagesPost ["live-session"] (some "dead-session") (Except.ok ())
        = PostResponse.sessionNotFound
    ∧ handleMessagesPost ["live-session"] none (Except.ok ()) = PostResponse.badRequest := by
  constructor
  · exact (handleMessagesPost_c4 ["live-session"] (some "dead-session") (Except.ok ())).2
      "dead-session" rfl (by decide) (by decide)
  · exact (handleMessagesPost_c4 ["live-session"] none (Except.ok ())).1 rfl

/-- C5: once a session transport closes, its id is gone from the transport
table, and every subsequent POST carrying that (non-empty) session id takes
the session-not-found branch, whatever the message outcome would have
been. -/
theorem onClose_c5 (table : List String) (sid : String) (hs : sid.isEmpty = false) :
    (onClose table sid).contains sid = false
    ∧ ∀ post, handleMessagesPost (onClose table sid) (some sid) post
        = PostResponse.sessionNotFound := by
  have hmem : sid ∉ onClose table sid := by
    intro h
    have h2 := List.of_mem_filter h
    simp at h2
  have hcont : (onClose table sid).contains sid = false := by
    cases hc : (onClose table sid).contains sid with
    | false => rfl
    | true => exact absurd (List.mem_of_elem_eq_true hc) hmem
  refine ⟨hcont, fun post => ?_⟩
  simp [handleMessagesPost, hs, hmem]

/-- Witness for C5: closing session `abc` removes it from a table that
also holds `d`, and a POST for `abc` is then answered with the
session-not-found response. -/
theorem onClose_c5_witness :
    (onClose ["abc", "d"] "abc").contains "abc" = false
    ∧ handleMessagesPost (onClose ["abc", "d"] "abc") (some "abc") (Except.ok ())
        = PostResponse.sessionNotFound := by
  have h := onClose_c5 ["abc", "d"] "abc" (by decide)
  exact ⟨h.1, h.2 (Except.ok ())⟩

/-! ## PageMapping cache and Confluence tool handlers

The tool handlers (`confluence_create_page`, `confluence_update_page`,
`confluence_delete_page`, `confluence_list_pages`) are translated from the
confluence server source.  Each external effect - the markdown conversion,
the remote REST call - is an explicit `Except`-valued outcome parameter
(one handler call consumes exactly one outcome; the code never retries a
failed remote call).  The `MarkdownPageCache` class itself ships outside
the sources at hand, so its three methods are modelled from the spec. -/

/-- A cached mapping from a local markdown path to a remote page. -/
structure PageMapping where
  markdownPath : String
  pageId : String
  spaceKey : String
  title : String
  lastUpdated : String
deriving DecidableEq, Repr

/-- Modelled from the spec: the `MarkdownPageCache` store.  The spec fixes
"at most one mapping per sourcePath", keyed by path, so the cache is an
insertion-ordered association list with unique keys, enumerated by
`getAllMappings` in that order. -/
abbrev Cache := List (String × PageMapping)

/-- Modelled from the spec: `MarkdownPageCache.setPageMapping` upserts the
mapping for a path, "overwriting any prior mapping". -/
def setPageMapping : Cache → String → PageMapping → Cache
  | [], p, m => [(p, m)]
  | (k, m0) :: rest, p, m =>
      if k = p then (p, m) :: rest else (k, m0) :: setPageMapping rest p m

/-- Modelled from the spec: `MarkdownPageCache.removePageMapping` removes
the entry stored under the given path. -/
def removePageMapping (cache : Cache) (p : String) : Cache :=
  cache.filter fun kv => kv.1 != p

/-- A remote Confluence page as the client returns it. -/
structure RemotePage where
  id : String
  spaceKey : String
  title : String
  version : Nat
deriving DecidableEq, Repr

/-- A tool handler result: the `content` payload on success, or the
`isError: true` payload carrying `error.message || default`. -/
inductive ToolResult (α : Type) where
  | ok (a : α)
  | err (msg : String)
deriving DecidableEq, Repr

/-- `confluence_update_page`: convert the markdown
(`converter.convertToConfluence`), then update the remote page
(`client.updatePage`, a single call whose outcome is `updatePage`), and
only after that call has succeeded cache the mapping when `markdownPath`
was given. -/
def confluence_update_page (convert : Except String Unit)
    (updatePage : Except String RemotePage) (markdownPath : Option String)
    (nowIso : String) (cache : Cache) : ToolResult RemotePage × Cache :=
  match convert with
  | Except.error m => (ToolResult.err (errOr m "Failed to update Confluence page"), cache)
  | Except.ok _ =>
      match updatePage with
      | Except.error m =>
          (ToolResult.err (errOr m "Failed to update Confluence page"), cache)
      | Except.ok page =>
          let cache2 := match markdownPath with
            | some p => setPageMapping cache p
                ⟨p, page.id, page.spaceKey, page.title, nowIso⟩
            | none => cache
          (ToolResult.ok page, cache2)

/-- C6: when the remote update fails (e.g. a version conflict from a stale
version number) the handler returns that error message as a structured
error result and leaves the cache untouched; conversely the cache can only
change when the single remote call succeeded, so `setPageMapping` runs
only after a successful update. -/
theorem confluence_update_page_c6 (convert : Except String Unit)
    (up : Except String RemotePage) (mp : Option String) (nowIso : String)
    (cache : Cache) :
    (∀ m, convert = Except.ok () → up = Except.error m →
      confluence_update_page convert up mp nowIso cache =
        (ToolResult.err (errOr m "Failed to update Confluence page"), cache))
    ∧ (∀ r c2, confluence_update_page convert up mp nowIso cache = (r, c2) →
        c2 ≠ cache → ∃ page, up = Except.ok page ∧ r = ToolResult.ok page) := by
  constructor
  · intro m hc hu
    subst hc
    subst hu
    rfl
  · intro r c2 hres hne
    cases convert with
    | error m =>
        simp [confluence_update_page] at hres
        exact absurd hres.2.symm hne
    | ok u =>
        cases up with
        | error m =>
            simp [confluence_update_page] at hres
            exact absurd hres.2.symm hne
        | ok page =>
            refine ⟨page, rfl, ?_⟩
            cases mp <;> simp_all [confluence_update_page]

/-- Witness for C6: a conflict error from the remote store is surfaced
verbatim and the cache is returned unchanged. -/
theorem confluence_update_page_c6_witness :
    confluence_update_page (Except.ok ())
        (Except.error "Conflict: version is stale") (some "docs/a.md") "t0"
        [("docs/a.md", ⟨"docs/a.md", "123", "KEY", "A", "t"⟩)] =
      (ToolResult.err "Conflict: version is stale",
        [("docs/a.md", ⟨"docs/a.md", "123", "KEY", "A", "t"⟩)]) := by
  have h := (confluence_update_page_c6 (Except.ok ())
      (Except.error "Conflict: version is stale") (some "docs/a.md") "t0"
      [("docs/a.md", ⟨"docs/a.md", "123", "KEY", "A", "t"⟩)]).1
      "Conflict: version is stale" rfl rfl
  simpa [errOr] using h

/-! ### Space-key resolution (`confluence_create_page`, `confluence_list_pages`) -/

/-- `getDefaultSpaceKey` from the config module: the environment value
`CONFLUENCE_SPACE_KEY || empty`, then `config.spaceKey || undefined`. -/
def getDefaultSpaceKey (env : Option String) : Option String :=
  if falsy env then none else env

/-- The space-key resolution of the create/list handlers:
`spaceKey || config?.spaceKey || getDefaultSpaceKey()`. -/
def resolveSpaceKey (arg proj env : Option String) : Option String :=
  jsOr (jsOr arg proj) (getDefaultSpaceKey env)

/-- The error payload returned when no space key resolves. -/
def noSpaceKeyMsg : String :=
  "No space key provided. Either:\n" ++
  "1. Pass spaceKey parameter, or\n" ++
  "2. Set up project config with confluence_setup_project, or\n" ++
  "3. Set CONFLUENCE_SPACE_KEY in .env file"

/-- `confluence_create_page`: resolve the space key; if none resolves,
return the configuration error before any remote work; otherwise convert,
create the page remotely (`createPage` applied to the resolved key), and
cache the mapping on success when `markdownPath` was given. -/
def confluence_create_page (arg proj env : Option String)
    (convert : Except String Unit)
    (createPage : String → Except String RemotePage)
    (markdownPath : Option String) (nowIso : String) (cache : Cache) :
    ToolResult RemotePage × Cache :=
  let finalSpaceKey := resolveSpaceKey arg proj env
  if falsy finalSpaceKey then (ToolResult.err noSpaceKeyMsg, cache)
  else
    match convert with
    | Except.error m =>
        (ToolResult.err (errOr m "Failed to create Confluence page"), cache)
    | Except.ok _ =>
        match createPage (finalSpaceKey.getD "") with
        | Except.error m =>
            (ToolResult.err (errOr m "Failed to create Confluence page"), cache)
        | Except.ok page =>
            let cache2 := match markdownPath with
              | some p => setPageMapping cache p
                  ⟨p, page.id, page.spaceKey, page.title, nowIso⟩
              | none => cache
            (ToolResult.ok page, cache2)

/-- `confluence_list_pages`: resolve the space key the same way; if none
resolves, return the configuration error, else list pages remotely. -/
def confluence_list_pages (arg proj env : Option String)
    (listPages : String → Except String (List RemotePage)) :
    ToolResult (List RemotePage) :=
  let finalSpaceKey := resolveSpaceKey arg proj env
  if falsy finalSpaceKey then ToolResult.err noSpaceKeyMsg
  else
    match listPages (finalSpaceKey.getD "") with
    | Except.ok pages => ToolResult.ok pages
    | Except.error m => ToolResult.err (errOr m "Failed to list Confluence pages")

/-- C7: the effective space key is the first truthy value among the
per-call argument, the project configuration and the environment default;
when all three are falsy, both handlers return the configuration error
with the cache untouched, for every possible remote outcome - i.e. the
error does not depend on (and hence needs no) remote call. -/
theorem resolveSpaceKey_c7 (arg proj env : Option String) :
    (falsy arg = false → resolveSpaceKey arg proj env = arg)
    ∧ (falsy arg = true → falsy proj = false → resolveSpaceKey arg proj env = proj)
    ∧ (falsy arg = true → falsy proj = true → falsy env = false →
        resolveSpaceKey arg proj env = env)
    ∧ (falsy arg = true → falsy proj = true → falsy env = true →
        (∀ convert createPage mp nowIso cache,
          confluence_create_page arg proj env convert createPage mp nowIso cache
            = (ToolResult.err noSpaceKeyMsg, cache))
        ∧ (∀ listPages, confluence_list_pages arg proj env listPages
            = ToolResult.err noSpaceKeyMsg)) := by
  refine ⟨?_, ?_, ?_, ?_⟩
  · intro ha
    simp [resolveSpaceKey, jsOr, ha]
  · intro ha hp
    simp [resolveSpaceKey, jsOr, ha, hp]
  · intro ha hp he
    simp [resolveSpaceKey, jsOr, getDefaultSpaceKey, ha, hp, he]
  · intro ha hp he
    have hres : resolveSpaceKey arg proj env = none := by
      simp [resolveSpaceKey, jsOr, getDefaultSpaceKey, ha, hp, he]
    constructor
    · intro convert createPage mp nowIso cache
      simp [confluence_create_page, hres, falsy]
    · intro listPages
      simp [confluence_list_pages, hres, falsy]

/-- Witness for C7: an explicit argument wins over both defaults; with all
three falsy (argument and project empty, environment unset) the create and
list handlers fail fast with the configuration error. -/
theorem resolveSpaceKey_c7_witness :
    resolveSpaceKey (some "ARG") (some "PROJ") (some "ENV") = some "ARG"
    ∧ confluence_create_page (some "") none none (Except.ok ())
        (fun k => Except.ok ⟨"1", k, "T", 1⟩) none "t0" []
        = (ToolResult.err noSpaceKeyMsg, [])
    ∧ confluence_list_pages (some "") none none (fun _ => Except.ok [])
        = ToolResult.err noSpaceKeyMsg := by
  have h4 := (resolveSpaceKey_c7 (some "") none none).2.2.2 (by decide) (by decide)
      (by decide)
  exact ⟨(resolveSpaceKey_c7 (some "ARG") (some "PROJ") (some "ENV")).1 (by decide),
    h4.1 (Except.ok ()) (fun k => Except.ok ⟨"1", k, "T", 1⟩) none "t0" [],
    h4.2 (fun _ => Except.ok [])⟩

/-! ### Deletion and the best-effort reverse scan (`confluence_delete_page`) -/

/-- The reverse scan of the delete handler when no `markdownPath` was
given: walk `Object.entries(getAllMappings())` in enumeration order, and
on the first mapping whose `pageId` matches, call `removePageMapping` on
its path and `break`. -/
def removeFirstByPageId (cache : Cache) (pid : String) : Cache :=
  match cache.find? (fun kv => kv.2.pageId == pid) with
  | some kv => removePageMapping cache kv.1
  | none => cache

/-- `confluence_delete_page`: delete the page remotely (`client.deletePage`,
outcome `deletePage`); on success remove the cache entry for
`markdownPath` when given, else run the best-effort reverse scan. -/
def confluence_delete_page (deletePage : Except String Unit) (pageId : String)
    (markdownPath : Option String) (cache : Cache) : ToolResult Unit × Cache :=
  match deletePage with
  | Except.error m =>
      (ToolResult.err (errOr m "Failed to delete Confluence page"), cache)
  | Except.ok _ =>
      match markdownPath with
      | some p => (ToolResult.ok (), removePageMapping cache p)
      | none => (ToolResult.ok (), removeFirstByPageId cache pageId)

/-- Cache keys are pairwise distinct (the spec invariant: at most one
mapping per sourcePath). -/
def cacheKeysNodup (cache : Cache) : Prop := (cache.map Prod.fst).Nodup

lemma removePageMapping_of_split {pre post : Cache} {p : String} {m : PageMapping}
    (hnd : cacheKeysNodup (pre ++ (p, m) :: post)) :
    removePageMapping (pre ++ (p, m) :: post) p = pre ++ post := by
  induction pre with
  | nil =>
      have h1 : (p :: post.map Prod.fst).Nodup := hnd
      have hpost : p ∉ post.map Prod.fst := (List.nodup_cons.mp h1).1
      have hself : removePageMapping post p = post := by
        apply List.filter_eq_self.mpr
        intro kv hkv
        have hne : kv.1 ≠ p := fun he => hpost (List.mem_map.mpr ⟨kv, hkv, he⟩)
        simpa [bne_iff_ne] using hne
      have hhead : ((p, m).1 != p) = false := by simp
      show removePageMapping ((p, m) :: post) p = post
      calc removePageMapping ((p, m) :: post) p
          = removePageMapping post p := by
            simp [removePageMapping, List.filter_cons, hhead]
        _ = post := hself
  | cons q rest ih =>
      obtain ⟨k, m0⟩ := q
      have h1 : (k :: (rest ++ (p, m) :: post).map Prod.fst).Nodup := hnd
      have hnd' : cacheKeysNodup (rest ++ (p, m) :: post) := (List.nodup_cons.mp h1).2
      have hkp : k ≠ p := by
        intro he
        refine (List.nodup_cons.mp h1).1 ?_
        subst he
        exact List.mem_map.mpr ⟨(k, m), by simp, rfl⟩
      have hh : ((k, m0).1 != p) = true := by simpa [bne_iff_ne] using hkp
      show removePageMapping ((k, m0) :: (rest ++ (p, m) :: post)) p
          = (k, m0) :: (rest ++ post)
      calc removePageMapping ((k, m0) :: (rest ++ (p, m) :: post)) p
          = (k, m0) :: removePageMapping (rest ++ (p, m) :: post) p := by
            simp [removePageMapping, List.filter_cons, hh]
        _ = (k, m0) :: (rest ++ post) := by rw [ih hnd']

lemma find?_of_split {α : Type} (pred : α → Bool) (pre : List α) (a : α)
    (post : List α) (hpre : ∀ x ∈ pre, pred x = false) (ha : pred a = true) :
    List.find? pred (pre ++ a :: post) = some a := by
  induction pre with
  | nil => simp [List.find?_cons, ha]
  | cons q rest ih =>
      have hq : pred q = false := hpre q (List.mem_cons_self _ _)
      simp only [List.cons_append, List.find?_cons, hq]
      exact ih fun x hx => hpre x (List.mem_cons_of_mem _ hx)

/-- C10: for a delete without `markdownPath` (after a successful remote
delete), the best-effort scan removes nothing when no cached mapping
carries the deleted page id, and otherwise removes exactly the first such
mapping in enumeration order - every mapping before it, and every mapping
after it (including further ones with the same page id), stays in the
cache. -/
theorem confluence_delete_page_c10 (cache : Cache) (pid : String)
    (hnd : cacheKeysNodup cache) :
    ((∀ kv ∈ cache, kv.2.pageId ≠ pid) →
      (confluence_delete_page (Except.ok ()) pid none cache).2 = cache)
    ∧ (∀ pre p m post, cache = pre ++ (p, m) :: post →
        (∀ kv ∈ pre, kv.2.pageId ≠ pid) → m.pageId = pid →
        (confluence_delete_page (Except.ok ()) pid none cache).2 = pre ++ post) := by
  constructor
  · intro hall
    have hnone : cache.find? (fun kv => kv.2.pageId == pid) = none := by
      apply List.find?_eq_none.mpr
      intro kv hkv
      simpa using hall kv hkv
    show removeFirstByPageId cache pid = cache
    simp [removeFirstByPageId, hnone]
  · intro pre p m post hsplit hpre hm
    subst hsplit
    have hfind : (pre ++ (p, m) :: post).find? (fun kv => kv.2.pageId == pid)
        = some (p, m) := by
      apply find?_of_split
      · intro kv hkv
        simpa using hpre kv hkv
      · simpa using hm
    show removeFirstByPageId (pre ++ (p, m) :: post) pid = pre ++ post
    rw [removeFirstByPageId, hfind]
    exact removePageMapping_of_split hnd

/-- Witness for C10: with two cached mappings both pointing at page `P`,
deleting `P` without a path removes only the first mapping; the second
survives. -/
theorem confluence_delete_page_c10_witness :
    (confluence_delete_page (Except.ok ()) "P" none
        [("a", ⟨"a", "P", "S", "A", "t"⟩), ("b", ⟨"b", "P", "S", "B", "t"⟩)]).2
      = [("b", ⟨"b", "P", "S", "B", "t"⟩)] := by
  exact (confluence_delete_page_c10
      [("a", ⟨"a", "P", "S", "A", "t"⟩), ("b", ⟨"b", "P", "S", "B", "t"⟩)] "P"
      (by simp [cacheKeysNodup])).2
    [] "a" ⟨"a", "P", "S", "A", "t"⟩ [("b", ⟨"b", "P", "S", "B", "t"⟩)]
    rfl (by simp) rfl

/-! ## Diagram pipeline (`DiagramProcessor.processMarkdown`)

The processor scans the markdown with the global regex
`/BTBTBTmermaid NL ([anything]*?) NL BTBTBT/` (lazy body), converts each
matched block (trimmed) with one external call per block, and then runs a
second pass with `String.replace` over the same regex, consuming the
collected per-block results in order: a block whose stored buffer is empty
keeps its original fenced text, any other block becomes a markdown image
reference; finally only the diagrams with a non-empty buffer are returned.

Markdown text is embedded as `List Char`.  The literal regex delimiters
are `openTag` (three backticks, `mermaid`, newline) and `closeTag`
(newline, three backticks); the lazy `matchAll` scan is `splitMermaid`,
which decomposes the text into unmatched characters and matched blocks,
each block carrying its full matched text and its captured body (shortest
body, leftmost match - exactly the JavaScript semantics, since the first
regex token is the literal `openTag`).  The external converter is a
parameter `conv : Nat → List Char → Except Unit (List Nat)` giving the
outcome of the one conversion call made for block `i` with the given
(trimmed) source - `Except.error` embeds a thrown/rejected call, `ok` a
resolved one with the response bytes. -/

/-- The literal opening delimiter of the regex: three backticks,
`mermaid`, a newline. -/
def openTag : List Char :=
  ['`', '`', '`', 'm', 'e', 'r', 'm', 'a', 'i', 'd', '\n']

/-- The literal closing delimiter of the regex: a newline and three
backticks. -/
def closeTag : List Char := ['\n', '`', '`', '`']

/-- Lazy-body matching: split `l` as `body ++ closeTag ++ rest` with the
shortest possible `body` (the first occurrence of `closeTag`). -/
def findClose : List Char → Option (List Char × List Char)
  | [] => none
  | c :: cs =>
      if closeTag.isPrefixOf (c :: cs) then
        some ([], (c :: cs).drop closeTag.length)
      else
        match findClose cs with
        | some (body, rest) => some (c :: body, rest)
        | none => none

/-- One piece of the scanned document: an unmatched character, or a
matched block carrying its full matched text and its captured body. -/
inductive Piece where
  | text (c : Char)
  | block (full : List Char) (body : List Char)
deriving DecidableEq, Repr

/-- The regex scan, fuelled for structural recursion (each step consumes
at least one character, so `s.length` fuel always suffices). -/
def splitMermaidF : Nat → List Char → List Piece
  | 0, _ => []
  | _ + 1, [] => []
  | fuel + 1, c :: cs =>
      if openTag.isPrefixOf (c :: cs) then
        match findClose ((c :: cs).drop openTag.length) with
        | some (body, rest) =>
            Piece.block (openTag ++ body ++ closeTag) body :: splitMermaidF fuel rest
        | none => Piece.text c :: splitMermaidF fuel cs
      else
        Piece.text c :: splitMermaidF fuel cs

/-- The `matchAll`/`replace` scan of the document: leftmost matches, each
with the shortest body, scanning left to right. -/
def splitMermaid (s : List Char) : List Piece :=
  splitMermaidF s.length s

/-- The text a piece contributes to the original document. -/
def pieceText : Piece → List Char
  | Piece.text c => [c]
  | Piece.block full _ => full

/-- The matched blocks of a scan, in order, as (full text, body) pairs. -/
def blocksOf (ps : List Piece) : List (List Char × List Char) :=
  ps.filterMap fun p =>
    match p with
    | Piece.block full body => some (full, body)
    | Piece.text _ => none

/-- The captured bodies of a scan, in order (`match[1]` of each match). -/
def blockBodies (ps : List Piece) : List (List Char) :=
  (blocksOf ps).map Prod.snd

/-- JavaScript whitespace as relevant to `String.prototype.trim` over the
characters at hand. -/
def isJsWs (c : Char) : Bool :=
  c = ' ' || c = '\n' || c = '\t' || c = '\r' || c = '\x0b' || c = '\x0c'

/-- `String.prototype.trim`: drop whitespace at both ends. -/
def jsTrim (l : List Char) : List Char :=
  ((l.dropWhile isJsWs).reverse.dropWhile isJsWs).reverse

/-- One processed diagram (the `ProcessedDiagram` interface): the
generated filename, the PNG bytes, the trimmed source, the block index. -/
structure ProcessedDiagram where
  filename : String
  buffer : List Nat
  originalCode : List Char
  index : Nat
deriving DecidableEq, Repr

/-- The result of `processMarkdown` (the `ProcessedMarkdown` interface). -/
structure ProcessedMarkdown where
  markdown : List Char
  diagrams : List ProcessedDiagram
deriving DecidableEq, Repr

/-- `baseName-diagram-(i+1).png` for block index `i`. -/
def diagramFilename (baseName : String) (i : Nat) : String :=
  baseName ++ "-diagram-" ++ Nat.repr (i + 1) ++ ".png"

/-- The loop body for block `i`: try the conversion; on success push the
returned buffer, on a thrown error push the empty placeholder buffer. -/
def mkDiagram (conv : Nat → List Char → Except Unit (List Nat))
    (baseName : String) (i : Nat) (body : List Char) : ProcessedDiagram :=
  let code := jsTrim body
  let filename := diagramFilename baseName i
  match conv i code with
  | Except.ok buf => ⟨filename, buf, code, i⟩
  | Except.error _ => ⟨filename, [], code, i⟩

/-- The markdown image reference substituted for a converted diagram. -/
def imageRef (d : ProcessedDiagram) : List Char :=
  ("![Diagram " ++ Nat.repr (d.index + 1) ++ "](" ++ d.filename ++ ")").toList

/-- The replace pass: walk the scanned pieces, consuming the collected
diagrams in lockstep (`diagramIndex++`); an empty stored buffer keeps the
original matched text, otherwise the image reference is substituted. -/
def renderPieces : List Piece → List ProcessedDiagram → List Char
  | [], _ => []
  | Piece.text c :: ps, ds => c :: renderPieces ps ds
  | Piece.block full _ :: ps, [] => full ++ renderPieces ps []
  | Piece.block full _ :: ps, d :: ds =>
      (if d.buffer.length = 0 then full else imageRef d) ++ renderPieces ps ds

/-- `DiagramProcessor.processMarkdown`: scan, early-return when there is
no match, convert each block in order, rewrite, and return only the
diagrams with a non-empty buffer. -/
def processMarkdown (conv : Nat → List Char → Except Unit (List Nat))
    (baseName : String) (content : List Char) : ProcessedMarkdown :=
  let pieces := splitMermaid content
  let bodies := blockBodies pieces
  if bodies.length = 0 then
    ⟨content, []⟩
  else
    let diagrams := bodies.enum.map fun ib => mkDiagram conv baseName ib.1 ib.2
    ⟨renderPieces pieces diagrams, diagrams.filter fun d => decide (0 < d.buffer.length)⟩

/-! ### Spec-level description of the pipeline

The following definitions word the spec contract (failure isolation,
per-block success/failure, successful artifacts only) independently of the
lockstep implementation above; the C1 theorem proves the implementation
equal to them. -/

/-- A conversion outcome counts as failed exactly when the stored buffer
would be empty: a thrown call, or a nominally successful call whose
response body is empty. -/
def failish : Except Unit (List Nat) → Bool
  | Except.ok buf => buf.isEmpty
  | Except.error _ => true

/-- Block `i` with the given body fails under converter `conv`. -/
def isFailure (conv : Nat → List Char → Except Unit (List Nat))
    (i : Nat) (body : List Char) : Bool :=
  failish (conv i (jsTrim body))

/-- The image reference for block `i`, spec-level. -/
def imageRefSpec (baseName : String) (i : Nat) : List Char :=
  ("![Diagram " ++ Nat.repr (i + 1) ++ "](" ++ diagramFilename baseName i ++ ")").toList

/-- Spec-level rewrite: failed blocks keep their original fenced text
verbatim, successfully converted blocks become image references,
unmatched text is untouched; `i` is the index of the next block. -/
def renderSpec (conv : Nat → List Char → Except Unit (List Nat))
    (baseName : String) : List Piece → Nat → List Char
  | [], _ => []
  | Piece.text c :: ps, i => c :: renderSpec conv baseName ps i
  | Piece.block full body :: ps, i =>
      (if isFailure conv i body then full else imageRefSpec baseName i)
        ++ renderSpec conv baseName ps (i + 1)

/-- Spec-level artifact list: exactly the successfully converted blocks,
in order, with their buffers, trimmed sources and indices. -/
def specDiagrams (conv : Nat → List Char → Except Unit (List Nat))
    (baseName : String) : Nat → List (List Char) → List ProcessedDiagram
  | _, [] => []
  | i, body :: rest =>
      match conv i (jsTrim body) with
      | Except.ok buf =>
          if buf.isEmpty then specDiagrams conv baseName (i + 1) rest
          else ⟨diagramFilename baseName i, buf, jsTrim body, i⟩
            :: specDiagrams conv baseName (i + 1) rest
      | Except.error _ => specDiagrams conv baseName (i + 1) rest

/-! ### Structural lemmas about the scan -/

lemma findClose_decomp : ∀ {l b r : List Char},
    findClose l = some (b, r) → l = b ++ closeTag ++ r := by
  intro l
  induction l with
  | nil => intro b r h; simp [findClose] at h
  | cons c cs ih =>
      intro b r h
      by_cases hp : closeTag.isPrefixOf (c :: cs)
      · obtain ⟨t, ht⟩ := (List.isPrefixOf_iff_prefix).mp hp
        have hfc : findClose (c :: cs) = some ([], (c :: cs).drop closeTag.length) := by
          simp [findClose, hp]
        rw [hfc] at h
        cases Option.some.inj h
        rw [← ht]
        simp [List.drop_left]
      · cases hf : findClose cs with
        | none => simp [findClose, hp, hf] at h
        | some pr =>
            obtain ⟨b0, r0⟩ := pr
            have hfc : findClose (c :: cs) = some (c :: b0, r0) := by
              simp [findClose, hp, hf]
            rw [hfc] at h
            cases Option.some.inj h
            have hcs := ih hf
            simp [hcs]

lemma isPrefixOf_decomp {l : List Char} (h : openTag.isPrefixOf l = true) :
    l = openTag ++ l.drop openTag.length := by
  obtain ⟨t, ht⟩ := (List.isPrefixOf_iff_prefix).mp h
  conv_lhs => rw [← ht]
  rw [← ht]
  simp [List.drop_left]

lemma splitMermaidF_join : ∀ fuel (s : List Char), s.length ≤ fuel →
    ((splitMermaidF fuel s).map pieceText).flatten = s := by
  intro fuel
  induction fuel with
  | zero =>
      intro s hs
      have : s = [] := List.eq_nil_of_length_eq_zero (Nat.le_zero.mp hs)
      subst this
      rfl
  | succ fuel ih =>
      intro s hs
      cases s with
      | nil => rfl
      | cons c cs =>
          have hcs : cs.length ≤ fuel := by
            simp at hs
            omega
          by_cases hp : openTag.isPrefixOf (c :: cs)
          · cases hf : findClose ((c :: cs).drop openTag.length) with
            | none =>
                have htail := ih cs hcs
                simp [splitMermaidF, hp, hf, pieceText, htail]
            | some pr =>
                obtain ⟨b, r⟩ := pr
                have hdec := findClose_decomp hf
                have hfull := isPrefixOf_decomp hp
                have hlen : (c :: cs).length
                    = openTag.length + ((c :: cs).drop openTag.length).length := by
                  conv_lhs => rw [hfull]
                  exact List.length_append _ _
                have h1 : ((c :: cs).drop openTag.length).length
                    = b.length + closeTag.length + r.length := by
                  rw [hdec]
                  simp only [List.length_append]
                have hrlen : r.length ≤ fuel := by
                  have hopen : openTag.length = 11 := rfl
                  have hclose : closeTag.length = 4 := rfl
                  have h2 : (c :: cs).length ≤ fuel + 1 := hs
                  omega
                have hjoin := ih r hrlen
                calc ((splitMermaidF (fuel + 1) (c :: cs)).map pieceText).flatten
                    = (openTag ++ b ++ closeTag)
                        ++ ((splitMermaidF fuel r).map pieceText).flatten := by
                      simp [splitMermaidF, hp, hf, pieceText]
                  _ = (openTag ++ b ++ closeTag) ++ r := by rw [hjoin]
                  _ = openTag ++ (b ++ closeTag ++ r) := by simp [List.append_assoc]
                  _ = openTag ++ (c :: cs).drop openTag.length := by rw [← hdec]
                  _ = c :: cs := hfull.symm
          · have htail := ih cs hcs
            simp [splitMermaidF, hp, pieceText, htail]

lemma splitMermaidF_block_shape : ∀ fuel (s : List Char) full body,
    Piece.block full body ∈ splitMermaidF fuel s →
    full = openTag ++ body ++ closeTag := by
  intro fuel
  induction fuel with
  | zero => intro s full body h; simp [splitMermaidF] at h
  | succ fuel ih =>
      intro s full body h
      cases s with
      | nil => simp [splitMermaidF] at h
      | cons c cs =>
          by_cases hp : openTag.isPrefixOf (c :: cs)
          · cases hf : findClose ((c :: cs).drop openTag.length) with
            | none =>
                simp [splitMermaidF, hp, hf] at h
                exact ih cs full body h
            | some pr =>
                obtain ⟨b, r⟩ := pr
                simp [splitMermaidF, hp, hf] at h
                rcases h with ⟨hfull, hbody⟩ | h
                · subst hbody; exact hfull
                · exact ih r full body h
          · simp [splitMermaidF, hp] at h
            exact ih cs full body h

/-! ### Refinement lemmas: lockstep implementation vs. spec wording -/

lemma mkDiagram_index (conv : Nat → List Char → Except Unit (List Nat))
    (baseName : String) (i : Nat) (body : List Char) :
    (mkDiagram conv baseName i body).index = i := by
  cases h : conv i (jsTrim body) <;> simp [mkDiagram, h]

lemma mkDiagram_filename (conv : Nat → List Char → Except Unit (List Nat))
    (baseName : String) (i : Nat) (body : List Char) :
    (mkDiagram conv baseName i body).filename = diagramFilename baseName i := by
  cases h : conv i (jsTrim body) <;> simp [mkDiagram, h]

lemma mkDiagram_buffer_empty_iff (conv : Nat → List Char → Except Unit (List Nat))
    (baseName : String) (i : Nat) (body : List Char) :
    ((mkDiagram conv baseName i body).buffer.length = 0) ↔ isFailure conv i body = true := by
  cases h : conv i (jsTrim body) with
  | ok buf => cases buf <;> simp [mkDiagram, isFailure, failish, h]
  | error u => simp [mkDiagram, isFailure, failish, h]

lemma imageRef_mkDiagram (conv : Nat → List Char → Except Unit (List Nat))
    (baseName : String) (i : Nat) (body : List Char) :
    imageRef (mkDiagram conv baseName i body) = imageRefSpec baseName i := by
  simp [imageRef, imageRefSpec, mkDiagram_index, mkDiagram_filename]

lemma blockBodies_text (c : Char) (ps : List Piece) :
    blockBodies (Piece.text c :: ps) = blockBodies ps := by
  simp [blockBodies, blocksOf]

lemma blockBodies_block (full body : List Char) (ps : List Piece) :
    blockBodies (Piece.block full body :: ps) = body :: blockBodies ps := by
  simp [blockBodies, blocksOf]

lemma renderPieces_enumFrom (conv : Nat → List Char → Except Unit (List Nat))
    (baseName : String) : ∀ (ps : List Piece) (k : Nat),
    renderPieces ps
        ((List.enumFrom k (blockBodies ps)).map fun ib => mkDiagram conv baseName ib.1 ib.2)
      = renderSpec conv baseName ps k := by
  intro ps
  induction ps with
  | nil => intro k; rfl
  | cons p ps ih =>
      intro k
      cases p with
      | text c =>
          rw [blockBodies_text]
          simp only [renderPieces, renderSpec]
          rw [ih k]
      | block full body =>
          rw [blockBodies_block]
          have hcons : List.enumFrom k (body :: blockBodies ps)
              = (k, body) :: List.enumFrom (k + 1) (blockBodies ps) := rfl
          rw [hcons]
          simp only [List.map_cons, renderPieces, renderSpec]
          rw [ih (k + 1)]
          congr 1
          by_cases hfail : isFailure conv k body = true
          · have hb : (mkDiagram conv baseName k body).buffer.length = 0 :=
              (mkDiagram_buffer_empty_iff conv baseName k body).mpr hfail
            simp [hb, hfail]
          · have hfail' : isFailure conv k body = false := by
              cases hx : isFailure conv k body
              · rfl
              · exact absurd hx hfail
            have hb : ¬ (mkDiagram conv baseName k body).buffer.length = 0 := by
              intro hx
              rw [(mkDiagram_buffer_empty_iff conv baseName k body).mp hx] at hfail'
              exact Bool.false_ne_true hfail'.symm
            simp [hb, hfail', imageRef_mkDiagram]

lemma filter_map_enumFrom_spec (conv : Nat → List Char → Except Unit (List Nat))
    (baseName : String) : ∀ (bodies : List (List Char)) (k : Nat),
    ((List.enumFrom k bodies).map fun ib => mkDiagram conv baseName ib.1 ib.2).filter
        (fun d => decide (0 < d.buffer.length))
      = specDiagrams conv baseName k bodies := by
  intro bodies
  induction bodies with
  | nil => intro k; rfl
  | cons b rest ih =>
      intro k
      have hcons : List.enumFrom k (b :: rest) = (k, b) :: List.enumFrom (k + 1) rest := rfl
      rw [hcons]
      simp only [List.map_cons, List.filter_cons]
      cases hc : conv k (jsTrim b) with
      | ok buf =>
          cases buf with
          | nil =>
              have hrhs : specDiagrams conv baseName k (b :: rest)
                  = specDiagrams conv baseName (k + 1) rest := by
                simp [specDiagrams, hc]
              have hcond : decide (0 < (mkDiagram conv baseName k b).buffer.length) = false := by
                simp [mkDiagram, hc]
              rw [hrhs]
              simp only [hcond, Bool.false_eq_true, if_false]
              exact ih (k + 1)
          | cons x xs =>
              have hrhs : specDiagrams conv baseName k (b :: rest)
                  = ⟨diagramFilename baseName k, x :: xs, jsTrim b, k⟩
                    :: specDiagrams conv baseName (k + 1) rest := by
                simp [specDiagrams, hc]
              have hhead : mkDiagram conv baseName k b
                  = ⟨diagramFilename baseName k, x :: xs, jsTrim b, k⟩ := by
                simp [mkDiagram, hc]
              have hcond : decide (0 < (mkDiagram conv baseName k b).buffer.length) = true := by
                simp [mkDiagram, hc]
              rw [hrhs]
              simp only [hcond, if_true]
              rw [hhead, ih (k + 1)]
      | error u =>
          have hrhs : specDiagrams conv baseName k (b :: rest)
              = specDiagrams conv baseName (k + 1) rest := by
            simp [specDiagrams, hc]
          have hcond : decide (0 < (mkDiagram conv baseName k b).buffer.length) = false := by
            simp [mkDiagram, hc]
          rw [hrhs]
          simp only [hcond, Bool.false_eq_true, if_false]
          exact ih (k + 1)

lemma renderSpec_of_no_blocks (conv : Nat → List Char → Except Unit (List Nat))
    (baseName : String) : ∀ (ps : List Piece) (k : Nat), blockBodies ps = [] →
    renderSpec conv baseName ps k = (ps.map pieceText).flatten := by
  intro ps
  induction ps with
  | nil => intro k h; rfl
  | cons p ps ih =>
      intro k h
      cases p with
      | text c =>
          rw [blockBodies_text] at h
          simp [renderSpec, pieceText, ih k h]
      | block full body =>
          rw [blockBodies_block] at h
          exact absurd h (List.cons_ne_nil _ _)

/-- The pipeline refinement: `processMarkdown` produces exactly the
spec-level rewrite and the spec-level artifact list. -/
lemma processMarkdown_spec (conv : Nat → List Char → Except Unit (List Nat))
    (baseName : String) (content : List Char) :
    processMarkdown conv baseName content =
      ⟨renderSpec conv baseName (splitMermaid content) 0,
       specDiagrams conv baseName 0 (blockBodies (splitMermaid content))⟩ := by
  by_cases h : (blockBodies (splitMermaid content)).length = 0
  · have hnil : blockBodies (splitMermaid content) = [] := List.eq_nil_of_length_eq_zero h
    have hmd : renderSpec conv baseName (splitMermaid content) 0 = content := by
      rw [renderSpec_of_no_blocks conv baseName _ 0 hnil]
      exact splitMermaidF_join content.length content (Nat.le_refl _)
    have hpm : processMarkdown conv baseName content = ⟨content, []⟩ := by
      simp [processMarkdown, h]
    rw [hpm, hmd, hnil]
    rfl
  · have henum : (blockBodies (splitMermaid content)).enum
        = List.enumFrom 0 (blockBodies (splitMermaid content)) := rfl
    have hpm : processMarkdown conv baseName content =
        ⟨renderPieces (splitMermaid content)
            ((List.enumFrom 0 (blockBodies (splitMermaid content))).map
              fun ib => mkDiagram conv baseName ib.1 ib.2),
         ((List.enumFrom 0 (blockBodies (splitMermaid content))).map
              fun ib => mkDiagram conv baseName ib.1 ib.2).filter
            (fun d => decide (0 < d.buffer.length))⟩ := by
      simp [processMarkdown, h, henum]
    rw [hpm, renderPieces_enumFrom, filter_map_enumFrom_spec]

lemma blockBodies_eq (ps : List Piece) :
    blockBodies ps = (blocksOf ps).map Prod.snd := rfl

lemma specDiagrams_index_ge (conv : Nat → List Char → Except Unit (List Nat))
    (bn : String) : ∀ (bodies : List (List Char)) (k : Nat) d,
    d ∈ specDiagrams conv bn k bodies → k ≤ d.index := by
  intro bodies
  induction bodies with
  | nil => intro k d hd; simp [specDiagrams] at hd
  | cons b rest ih =>
      intro k d hd
      cases hc : conv k (jsTrim b) with
      | ok buf =>
          cases buf with
          | nil =>
              rw [show specDiagrams conv bn k (b :: rest)
                  = specDiagrams conv bn (k + 1) rest from by simp [specDiagrams, hc]] at hd
              exact Nat.le_of_succ_le (ih (k + 1) d hd)
          | cons x xs =>
              rw [show specDiagrams conv bn k (b :: rest)
                  = ⟨diagramFilename bn k, x :: xs, jsTrim b, k⟩
                    :: specDiagrams conv bn (k + 1) rest from by simp [specDiagrams, hc]] at hd
              rcases List.mem_cons.mp hd with h | h
              · subst h
                exact Nat.le_refl k
              · exact Nat.le_of_succ_le (ih (k + 1) d h)
      | error u =>
          rw [show specDiagrams conv bn k (b :: rest)
              = specDiagrams conv bn (k + 1) rest from by simp [specDiagrams, hc]] at hd
          exact Nat.le_of_succ_le (ih (k + 1) d hd)

lemma specDiagrams_index_ne (conv : Nat → List Char → Except Unit (List Nat))
    (bn : String) : ∀ (bodies : List (List Char)) (k i : Nat) (body : List Char),
    bodies.get? i = some body → isFailure conv (k + i) body = true →
    ∀ d ∈ specDiagrams conv bn k bodies, d.index ≠ k + i := by
  intro bodies
  induction bodies with
  | nil => intro k i body hb; simp at hb
  | cons b rest ih =>
      intro k i body hb hf d hd
      cases i with
      | zero =>
          have hbb : b = body := by simpa using hb
          subst hbb
          have hf0 : failish (conv k (jsTrim b)) = true := by
            simpa [isFailure] using hf
          cases hc : conv k (jsTrim b) with
          | ok buf =>
              cases buf with
              | nil =>
                  rw [show specDiagrams conv bn k (b :: rest)
                      = specDiagrams conv bn (k + 1) rest from by simp [specDiagrams, hc]] at hd
                  have := specDiagrams_index_ge conv bn rest (k + 1) d hd
                  omega
              | cons x xs =>
                  rw [hc] at hf0
                  simp [failish] at hf0
          | error u =>
              rw [show specDiagrams conv bn k (b :: rest)
                  = specDiagrams conv bn (k + 1) rest from by simp [specDiagrams, hc]] at hd
              have := specDiagrams_index_ge conv bn rest (k + 1) d hd
              omega
      | succ j =>
          have hb' : rest.get? j = some body := by simpa using hb
          have hf' : isFailure conv ((k + 1) + j) body = true := by
            have heq : (k + 1) + j = k + (j + 1) := by omega
            rw [heq]
            exact hf
          have hne : d ∈ specDiagrams conv bn (k + 1) rest → d.index ≠ k + (j + 1) := by
            intro hd'
            have := ih (k + 1) j body hb' hf' d hd'
            omega
          cases hc : conv k (jsTrim b) with
          | ok buf =>
              cases buf with
              | nil =>
                  rw [show specDiagrams conv bn k (b :: rest)
                      = specDiagrams conv bn (k + 1) rest from by simp [specDiagrams, hc]] at hd
                  exact hne hd
              | cons x xs =>
                  rw [show specDiagrams conv bn k (b :: rest)
                      = ⟨diagramFilename bn k, x :: xs, jsTrim b, k⟩
                        :: specDiagrams conv bn (k + 1) rest from by simp [specDiagrams, hc]] at hd
                  rcases List.mem_cons.mp hd with h | h
                  · rw [h]
                    show k ≠ k + (j + 1)
                    omega
                  · exact hne h
          | error u =>
              rw [show specDiagrams conv bn k (b :: rest)
                  = specDiagrams conv bn (k + 1) rest from by simp [specDiagrams, hc]] at hd
              exact hne hd

lemma renderSpec_infix (conv : Nat → List Char → Except Unit (List Nat))
    (bn : String) : ∀ (ps : List Piece) (k i : Nat) (full body : List Char),
    (blocksOf ps).get? i = some (full, body) → isFailure conv (k + i) body = true →
    full <:+: renderSpec conv bn ps k := by
  intro ps
  induction ps with
  | nil => intro k i full body hb; simp [blocksOf] at hb
  | cons p ps ih =>
      intro k i full body hb hf
      cases p with
      | text c =>
          have hb' : (blocksOf ps).get? i = some (full, body) := by
            simpa [blocksOf] using hb
          obtain ⟨s, t, hst⟩ := ih k i full body hb' hf
          exact ⟨c :: s, t, by simp [renderSpec, ← hst]⟩
      | block f b =>
          have hcons : blocksOf (Piece.block f b :: ps) = (f, b) :: blocksOf ps := by
            simp [blocksOf]
          rw [hcons] at hb
          cases i with
          | zero =>
              have hpair : (f, b) = (full, body) := by simpa using hb
              have hfeq : f = full := congrArg Prod.fst hpair
              have hbeq : b = body := congrArg Prod.snd hpair
              have hfk : isFailure conv k b = true := by
                rw [hbeq]
                simpa using hf
              refine ⟨[], renderSpec conv bn ps (k + 1), ?_⟩
              simp [renderSpec, hfk, ← hfeq]
          | succ j =>
              have hb' : (blocksOf ps).get? j = some (full, body) := by simpa using hb
              have hf' : isFailure conv ((k + 1) + j) body = true := by
                have heq : (k + 1) + j = k + (j + 1) := by omega
                rw [heq]
                exact hf
              obtain ⟨s, t, hst⟩ := ih (k + 1) j full body hb' hf'
              refine ⟨(if isFailure conv k b then f else imageRefSpec bn k) ++ s, t, ?_⟩
              simp [renderSpec, ← hst, List.append_assoc]

/-- C1: `processMarkdown` never aborts on conversion failures - for every
document and every pattern of per-block conversion outcomes it returns
exactly the spec-level rewrite (each failed block keeps its original
fenced source verbatim in place, each successfully converted block is
replaced by its image reference, unmatched text is untouched) together
with exactly the successfully converted blocks as its artifact list. -/
theorem processMarkdown_c1 (conv : Nat → List Char → Except Unit (List Nat))
    (baseName : String) (content : List Char) :
    processMarkdown conv baseName content =
      ⟨renderSpec conv baseName (splitMermaid content) 0,
       specDiagrams conv baseName 0 (blockBodies (splitMermaid content))⟩ :=
  processMarkdown_spec conv baseName content

/-- C8: a document in which the mermaid regex finds no block is returned
character for character unchanged, with an empty diagram list. -/
theorem processMarkdown_c8 (conv : Nat → List Char → Except Unit (List Nat))
    (baseName : String) (content : List Char)
    (h : blockBodies (splitMermaid content) = []) :
    processMarkdown conv baseName content = ⟨content, []⟩ := by
  simp [processMarkdown, h]

/-- Witness for C8: a fenced block of another language has no mermaid
match and passes through unchanged. -/
theorem processMarkdown_c8_witness :
    blockBodies (splitMermaid ['`', '`', '`', 'j', 's', '\n', 'x', '\n', '`', '`', '`']) = []
    ∧ processMarkdown (fun _ _ => Except.ok [1]) "doc"
        ['`', '`', '`', 'j', 's', '\n', 'x', '\n', '`', '`', '`']
      = ⟨['`', '`', '`', 'j', 's', '\n', 'x', '\n', '`', '`', '`'], []⟩ :=
  ⟨by decide, processMarkdown_c8 (fun _ _ => Except.ok [1]) "doc"
    ['`', '`', '`', 'j', 's', '\n', 'x', '\n', '`', '`', '`'] (by decide)⟩

/-- C9: a block whose stored buffer is empty - a thrown conversion, or a
nominally successful conversion that returned an empty body - is treated
as failed: its full fenced source (`openTag ++ body ++ closeTag`) stays
verbatim inside the rewritten markdown, and no returned diagram carries
its index. -/
theorem processMarkdown_c9 (conv : Nat → List Char → Except Unit (List Nat))
    (baseName : String) (content : List Char) (i : Nat) (body : List Char)
    (hb : (blockBodies (splitMermaid content)).get? i = some body)
    (hf : isFailure conv i body = true) :
    (openTag ++ body ++ closeTag) <:+: (processMarkdown conv baseName content).markdown
    ∧ ((processMarkdown conv baseName content).diagrams.all
        fun d => d.index != i) = true := by
  obtain ⟨full, hfull⟩ :
      ∃ full, (blocksOf (splitMermaid content)).get? i = some (full, body) := by
    have hb' := hb
    rw [blockBodies_eq, List.get?_map] at hb'
    cases hp : (blocksOf (splitMermaid content)).get? i with
    | none => rw [hp] at hb'; simp at hb'
    | some pr =>
        obtain ⟨f0, b0⟩ := pr
        rw [hp] at hb'
        have hb0 : b0 = body := by simpa using hb'
        exact ⟨f0, by rw [hb0]⟩
  have hshape : full = openTag ++ body ++ closeTag := by
    have hmem : (full, body) ∈ blocksOf (splitMermaid content) := List.get?_mem hfull
    obtain ⟨p, hpmem, hpeq⟩ := List.mem_filterMap.mp hmem
    cases p with
    | text c => simp at hpeq
    | block f2 b2 =>
        have hpr : (f2, b2) = (full, body) := by simpa using hpeq
        have hf2 : f2 = full := congrArg Prod.fst hpr
        have hb2 : b2 = body := congrArg Prod.snd hpr
        rw [← hf2, ← hb2]
        exact splitMermaidF_block_shape content.length content f2 b2 hpmem
  have hspec := processMarkdown_spec conv baseName content
  constructor
  · rw [hspec]
    show (openTag ++ body ++ closeTag) <:+: renderSpec conv baseName (splitMermaid content) 0
    rw [← hshape]
    exact renderSpec_infix conv baseName (splitMermaid content) 0 i full body hfull
      (by simpa using hf)
  · rw [hspec]
    show ((specDiagrams conv baseName 0 (blockBodies (splitMermaid content))).all
        fun d => d.index != i) = true
    rw [List.all_eq_true]
    intro d hd
    have hne := specDiagrams_index_ne conv baseName (blockBodies (splitMermaid content))
      0 i body hb (by simpa using hf) d hd
    simpa [bne_iff_ne] using hne

/-- Witness for C9: a single block whose conversion nominally succeeds
with an empty body keeps its fenced source in the output and yields no
artifact. -/
theorem processMarkdown_c9_witness :
    (openTag ++ ['A'] ++ closeTag) <:+:
      (processMarkdown (fun _ _ => Except.ok ([] : List Nat)) "doc"
        (openTag ++ ['A'] ++ closeTag)).markdown
    ∧ ((processMarkdown (fun _ _ => Except.ok ([] : List Nat)) "doc"
        (openTag ++ ['A'] ++ closeTag)).diagrams.all fun d => d.index != 0) = true :=
  processMarkdown_c9 (fun _ _ => Except.ok ([] : List Nat)) "doc"
    (openTag ++ ['A'] ++ closeTag) 0 ['A'] (by decide) (by decide)

/-- The spec test scenario, computed concretely: three blocks with block 2
failing yield rendered references for blocks 1 and 3, the untouched
original source for block 2, and exactly 2 artifacts. -/
lemma processMarkdown_partial_failure_scenario :
    (processMarkdown (fun i _ => if i = 1 then Except.error () else Except.ok [7]) "doc"
        (openTag ++ ['A'] ++ closeTag ++ ['\n'] ++
         openTag ++ ['B'] ++ closeTag ++ ['\n'] ++
         openTag ++ ['C'] ++ closeTag)).markdown =
      ("![Diagram 1](doc-diagram-1.png)" ++ "\n").toList ++
      (openTag ++ ['B'] ++ closeTag) ++ ['\n'] ++
      ("![Diagram 3](doc-diagram-3.png)").toList
    ∧ (processMarkdown (fun i _ => if i = 1 then Except.error () else Except.ok [7]) "doc"
        (openTag ++ ['A'] ++ closeTag ++ ['\n'] ++
         openTag ++ ['B'] ++ closeTag ++ ['\n'] ++
         openTag ++ ['C'] ++ closeTag)).diagrams.length = 2 := by
  decide
